import Mathlib

/-!
Verification of the AWD-LSTM training driver (src/main.py) against its
natural-language specification. The driver logic of main.py is embedded as
executable Lean functions; the numeric engine (the model from layers.py and
the torch optimizer, which are not part of src) is an abstract oracle, and
the batcher from utils.py is modelled from the specification since utils.py
is also not part of src.
-/

namespace AWD

/-- Command line hyperparameters of main.py (argparse block, lines 18 to 52) that the
training driver consults; data paths and device flags play no role in the claims. -/
structure Args where
  lr : ℚ
  bptt : ℕ
  use_var_bptt : Bool
  anneal_factor : ℚ
  epochs : ℕ
  alpha : ℚ
  beta : ℚ
  emb_dim : ℕ
  hidden_dim : ℕ
  num_layers : ℕ
  tie_weights : Bool
deriving DecidableEq

/-- One BPTT window: the input token slice x and the target slice y, unpacked at
main.py line 111. Tokens are vocabulary ids. -/
structure Window where
  x : List ℕ
  y : List ℕ
deriving DecidableEq

/-- Length of the next window emitted by the batcher: in variable mode the requested
random draw clamped below by 5 and above by the remaining usable stream, in standard
mode the fixed bptt value clamped by the remaining usable stream. -/
def windowLenAt (use_var : Bool) (bptt req remaining : ℕ) : ℕ :=
  min (if use_var then max req 5 else bptt) remaining

/-- Modelled from the spec: utils.get_loaders is imported at main.py line 15 but utils.py
is not under src. Spec section 4.6: each window input is the slice of the stream from t of
length L and each target the slice from t+1 of length L, t advances by L, lengths are
clamped to a minimum of 5 (variable mode) and to the remaining usable stream, and a final
window shorter than 2 tokens is dropped. The fuel argument bounds the recursion and equals
the stream length at the top level, which suffices because t advances by at least one
token per emitted window. -/
def get_loadersGo (stream : List ℕ) (use_var : Bool) (bptt : ℕ) (req : ℕ → ℕ) :
    ℕ → ℕ → ℕ → List Window
  | 0, _, _ => []
  | fuel + 1, t, k =>
    let remaining := stream.length - 1 - t
    if remaining < 2 then []
    else
      let L := windowLenAt use_var bptt (req k) remaining
      { x := (stream.drop t).take L, y := (stream.drop (t + 1)).take L } ::
        get_loadersGo stream use_var bptt req fuel (t + L) (k + 1)

/-- Modelled from the spec: the batcher of spec section 4.6 over a flat token stream,
called at main.py lines 77 to 79. The function req supplies the random length draw for
each window index; standard mode ignores it. Batch reshaping is outside the flat stream
contract of section 4.6. -/
def get_loaders (stream : List ℕ) (bptt : ℕ) (req : ℕ → ℕ) (use_var : Bool) : List Window :=
  get_loadersGo stream use_var bptt req stream.length 0 0

/-- Concatenation of all window inputs of a loader, in order. -/
def inputsFlat (ws : List Window) : List ℕ := (ws.map Window.x).flatten

/-- Concatenation of all window targets of a loader, in order. -/
def targetsFlat (ws : List Window) : List ℕ := (ws.map Window.y).flatten

/-- Mean over every entry of a tensor laid out as a list of time steps, each a flat list
of rationals: torch Tensor.mean. An empty tensor gives 0 here (torch would give NaN). -/
def tmean (t : List (List ℚ)) : ℚ := (t.flatten).sum / ((t.flatten).length : ℚ)

/-- Elementwise square of a tensor, torch Tensor.pow 2. -/
def sqTensor (t : List (List ℚ)) : List (List ℚ) := t.map (fun row => row.map (fun v => v * v))

/-- Differences of consecutive time steps: the tensor raw[1:] - raw[:-1] of main.py
line 128, pairing step i+1 with step i. -/
def tdiff (t : List (List ℚ)) : List (List ℚ) :=
  List.zipWith (fun a b => List.zipWith (fun u v => u - v) a b) (t.drop 1) t

/-- The loss whose gradient is taken for one batch, main.py lines 123 to 128: raw cross
entropy plus alpha times the mean square of the dropped output of the last layer plus
beta times the mean square of consecutive differences of the raw output of the last
layer. The Python index -1 on the per layer lists is getLastD here. -/
def batchLoss (args : Args) (rawLoss : ℚ) (rawOuts droppedOuts : List (List (List ℚ))) : ℚ :=
  rawLoss + args.alpha * tmean (sqTensor (droppedOuts.getLastD []))
    + args.beta * tmean (sqTensor (tdiff (rawOuts.getLastD [])))

/-- Result of model(x, return_states=True) together with the criterion value, main.py
lines 122 to 123: the raw cross entropy of the logits against the targets, the per layer
raw and dropped outputs, and the hidden state carried (detached) to the next window. -/
structure FwdOut (H : Type) where
  rawLoss : ℚ
  rawOuts : List (List (List ℚ))
  droppedOuts : List (List (List ℚ))
  hOut : H

/-- Abstract numeric engine. The model of layers.py and the torch optimizer live outside
src, so the training mode forward pass, the clipped gradient step and the evaluation mode
forward pass are oracle functions over abstract parameter and hidden state types; the
driver logic of main.py that feeds them is what this file verifies. h0 is the zeroed
hidden state installed by reset_hidden. The step oracle receives the parameters, the
learning rate in effect, the loss that was backpropagated and the window. -/
structure Dyn (P H : Type) where
  h0 : H
  fwdTrain : P → H → Window → FwdOut H
  step : P → ℚ → ℚ → Window → P
  fwdEval : P → H → Window → ℚ × H

/-- Record of one training batch iteration: sequence length, learning rate during the
optimizer step and after the restore, raw and regularized losses, the returned per layer
outputs, and the parameter and hidden dataflow. -/
structure TBRec (P H : Type) where
  seqLen : ℕ
  lrDuring : ℚ
  lrAfter : ℚ
  rawLoss : ℚ
  backLoss : ℚ
  rawOuts : List (List (List ℚ))
  droppedOuts : List (List (List ℚ))
  pIn : P
  pOut : P
  hIn : H
  hOut : H
deriving DecidableEq

/-- Record of one evaluation batch: the criterion value and the hidden dataflow. -/
structure VBRec (H : Type) where
  loss : ℚ
  hIn : H
  hOut : H
deriving DecidableEq

variable {P H : Type}

/-- One iteration of the training batch loop, main.py lines 110 to 139: rescale the
learning rate to the sequence length when variable BPTT is on (line 116), forward with
return_states, form the loss with the AR and TAR penalties, backward and clipped step at
the rescaled rate, then restore the base rate (line 137). The state threads parameters,
hidden state and the optimizer learning rate. -/
def trainStep (dyn : Dyn P H) (args : Args) :
    P × H × ℚ → Window → (P × H × ℚ) × TBRec P H
  | (p, h, lr), w =>
    let L := w.x.length
    let lr1 := if args.use_var_bptt then args.lr * (L : ℚ) / (args.bptt : ℚ) else lr
    let f := dyn.fwdTrain p h w
    let loss := batchLoss args f.rawLoss f.rawOuts f.droppedOuts
    let p1 := dyn.step p lr1 loss w
    let lr2 := if args.use_var_bptt then args.lr else lr1
    ((p1, f.hOut, lr2),
     { seqLen := L, lrDuring := lr1, lrAfter := lr2, rawLoss := f.rawLoss
       backLoss := loss, rawOuts := f.rawOuts, droppedOuts := f.droppedOuts
       pIn := p, pOut := p1, hIn := h, hOut := f.hOut })

/-- The training batch loop folded over the loader, returning the final state and the
per batch records in order. -/
def foldSteps (dyn : Dyn P H) (args : Args) :
    P × H × ℚ → List Window → (P × H × ℚ) × List (TBRec P H)
  | s, [] => (s, [])
  | s, w :: ws =>
    let r := trainStep dyn args s w
    let rest := foldSteps dyn args r.1 ws
    (rest.1, r.2 :: rest.2)

/-- The evaluation batch loop, main.py lines 146 to 155 and 181 to 190: no gradient, no
regularization penalties, parameters are read but never written, the hidden state is
carried across windows. -/
def evalSteps (dyn : Dyn P H) (p : P) : H → List Window → H × List (VBRec H)
  | h, [] => (h, [])
  | h, w :: ws =>
    let r := dyn.fwdEval p h w
    let rest := evalSteps dyn p r.2 ws
    (rest.1, { loss := r.1, hIn := h, hOut := r.2 } :: rest.2)

/-- Comparison against the running best validation loss, main.py line 160. The best loss
is initialised to numpy inf at line 98; none stands for that initial infinity. -/
def improves (v : ℚ) : Option ℚ → Bool
  | none => true
  | some b => decide (v < b)

/-- Running minimum step used to describe the best validation loss seen so far. -/
def minOpt : Option ℚ → ℚ → Option ℚ
  | none, v => some v
  | some b, v => some (min b v)

/-- Scheduler state across epochs: best validation loss so far, the epoch it was reached,
the optimizer learning rate, and the persisted checkpoint contents (none until the first
save). -/
structure Sched (P : Type) where
  best : Option ℚ
  bestEpoch : ℕ
  lr : ℚ
  ckpt : Option P
deriving DecidableEq

/-- End of epoch bookkeeping, main.py lines 159 to 169: on strict improvement record the
loss and the epoch and overwrite the checkpoint with the current parameters; otherwise
leave the checkpoint alone and divide the learning rate by the anneal factor unless
variable BPTT is enabled. -/
def epochEnd (args : Args) (e : ℕ) (validLoss : ℚ) (p : P) (s : Sched P) : Sched P :=
  if improves validLoss s.best then
    { best := some validLoss, bestEpoch := e, lr := s.lr, ckpt := some p }
  else
    { s with lr := if args.use_var_bptt then s.lr else s.lr / args.anneal_factor }

/-- Observable events of the run, used for the temporal claims: hidden state resets,
batch processing per pass, the per window learning rate writes of lines 116 and 137, and
the anneal write of line 168. -/
inductive Ev where
  | reset
  | trainB (seqLen : ℕ)
  | validB
  | testB
  | lrSet (v : ℚ)
  | annealLR (v : ℚ)
deriving DecidableEq

/-- Events emitted by one training batch: the two learning rate writes bracket the batch
only when variable BPTT is enabled. -/
def recEvents (args : Args) (r : TBRec P H) : List Ev :=
  if args.use_var_bptt then [.lrSet r.lrDuring, .trainB r.seqLen, .lrSet r.lrAfter]
  else [.trainB r.seqLen]

/-- Events of one training pass: the single reset_hidden call of main.py line 108
followed by the batch events. -/
def trainPassEvents (args : Args) (recs : List (TBRec P H)) : List Ev :=
  .reset :: (recs.map (recEvents args)).flatten

/-- Events of one validation pass: the single reset_hidden call of main.py line 144
followed by the batch events. -/
def validPassEvents (recs : List (VBRec H)) : List Ev :=
  .reset :: recs.map (fun _ => .validB)

/-- Events of the test pass: the single reset_hidden call of main.py line 179 followed by
the batch events. -/
def testPassEvents (recs : List (VBRec H)) : List Ev :=
  .reset :: recs.map (fun _ => .testB)

/-- State threaded through the epoch loop of main.py lines 106 to 171. -/
structure LoopState (P H : Type) where
  params : P
  hidden : H
  sched : Sched P
  trainLosses : List ℚ
  validLosses : List ℚ
  epochRecs : List (List (TBRec P H) × List (VBRec H))
  events : List Ev

/-- One full epoch, main.py lines 107 to 171: training pass over the whole loader with the
reported loss the mean of the raw cross entropies, validation pass with the reported loss
the mean of the criterion values, then the end of epoch scheduler update. -/
def fullEpoch (dyn : Dyn P H) (args : Args) (trainL validL : List Window) (e : ℕ)
    (s : LoopState P H) : LoopState P H :=
  let tr := foldSteps dyn args (s.params, dyn.h0, s.sched.lr) trainL
  let p1 := tr.1.1
  let lr1 := tr.1.2.2
  let trainLoss := ((tr.2.map TBRec.rawLoss).sum) / ((trainL.length : ℚ))
  let va := evalSteps dyn p1 dyn.h0 validL
  let validLoss := ((va.2.map VBRec.loss).sum) / ((validL.length : ℚ))
  let sch1 : Sched P := { s.sched with lr := lr1 }
  let sch2 := epochEnd args e validLoss p1 sch1
  { params := p1
    hidden := va.1
    sched := sch2
    trainLosses := s.trainLosses ++ [trainLoss]
    validLosses := s.validLosses ++ [validLoss]
    epochRecs := s.epochRecs ++ [(tr.2, va.2)]
    events := s.events ++ trainPassEvents args tr.2 ++ validPassEvents va.2 ++
      (if improves validLoss sch1.best || args.use_var_bptt then []
       else [.annealLR (sch1.lr / args.anneal_factor)]) }

/-- An epoch cut short by KeyboardInterrupt during the training pass after b batches:
the partial training work is kept in memory, but line 140 is never reached so no train
loss is appended, and the validation pass and scheduler update never run. -/
def interruptedTrainEpoch (dyn : Dyn P H) (args : Args) (trainL : List Window) (b : ℕ)
    (s : LoopState P H) : LoopState P H :=
  let tr := foldSteps dyn args (s.params, dyn.h0, s.sched.lr) (trainL.take b)
  { s with
    params := tr.1.1
    hidden := tr.1.2.1
    sched := { s.sched with lr := tr.1.2.2 }
    epochRecs := s.epochRecs ++ [(tr.2, [])]
    events := s.events ++ trainPassEvents args tr.2 }

/-- An epoch cut short by KeyboardInterrupt during the validation pass after b batches:
the train loss was already appended at line 141, but line 157 is never reached so no
validation loss is appended and the scheduler update never runs. -/
def interruptedValidEpoch (dyn : Dyn P H) (args : Args) (trainL validL : List Window)
    (b : ℕ) (s : LoopState P H) : LoopState P H :=
  let tr := foldSteps dyn args (s.params, dyn.h0, s.sched.lr) trainL
  let p1 := tr.1.1
  let trainLoss := ((tr.2.map TBRec.rawLoss).sum) / ((trainL.length : ℚ))
  let va := evalSteps dyn p1 dyn.h0 (validL.take b)
  { params := p1
    hidden := va.1
    sched := { s.sched with lr := tr.1.2.2 }
    trainLosses := s.trainLosses ++ [trainLoss]
    validLosses := s.validLosses
    epochRecs := s.epochRecs ++ [(tr.2, va.2)]
    events := s.events ++ trainPassEvents args tr.2 ++ validPassEvents va.2 }

/-- Interrupt point of a run: never, or a KeyboardInterrupt during the training pass of
epoch e after b batches, or during the validation pass of epoch e after b batches. The
try block of main.py lines 105 to 174 converts any of these into a jump to the final
test evaluation. -/
inductive Stop where
  | never
  | duringTrain (e b : ℕ)
  | duringValid (e b : ℕ)
deriving DecidableEq

/-- Whether the interrupt fires at epoch e, and if so in which phase and after how many
batches. -/
def interruptAt : Stop → ℕ → Option (Bool × ℕ)
  | .never, _ => none
  | .duringTrain e b, e1 => if e1 = e then some (true, b) else none
  | .duringValid e b, e1 => if e1 = e then some (false, b) else none

/-- The epoch loop of main.py line 106: n epochs remain and e is the current epoch
number; an interrupt ends the loop at once, exactly as the except clause at line 173
does. -/
def runEpochs (dyn : Dyn P H) (args : Args) (trainL validL : List Window) (stop : Stop) :
    ℕ → ℕ → LoopState P H → LoopState P H
  | 0, _, s => s
  | n + 1, e, s =>
    match interruptAt stop e with
    | some (true, b) => interruptedTrainEpoch dyn args trainL b s
    | some (false, b) => interruptedValidEpoch dyn args trainL validL b s
    | none => runEpochs dyn args trainL validL stop n (e + 1) (fullEpoch dyn args trainL validL e s)

/-- Everything observable about one run of the driver. -/
structure RunResult (P H : Type) where
  trainLosses : List ℚ
  validLosses : List ℚ
  epochRecs : List (List (TBRec P H) × List (VBRec H))
  sched : Sched P
  paramsAtTest : P
  testRecs : List (VBRec H)
  testLoss : ℚ
  events : List Ev
  validWindows : List Window
  testWindows : List Window
  outputs : Option ((List ℚ × List ℚ) × (Option ℚ × ℕ × ℚ))

/-- The whole driver, main.py lines 76 to 199: loader construction (the validation and
test loaders are built without the variable BPTT flag), the epoch loop guarded by the
KeyboardInterrupt handler, the final test evaluation on whatever parameters are in
memory, and the CSV plus summary text outputs. The pandas DataFrame constructor at line
197 raises when the two loss columns differ in length, in which case neither file is
written; outputs is none exactly then. -/
def runProgram (dyn : Dyn P H) (args : Args) (p0 : P) (trainS validS testS : List ℕ)
    (req : ℕ → ℕ) (stop : Stop) : RunResult P H :=
  let trainL := get_loaders trainS args.bptt req args.use_var_bptt
  let validL := get_loaders validS args.bptt req false
  let testL := get_loaders testS args.bptt req false
  let s0 : LoopState P H :=
    { params := p0
      hidden := dyn.h0
      sched := { best := none, bestEpoch := 0, lr := args.lr, ckpt := none }
      trainLosses := [], validLosses := [], epochRecs := [], events := [] }
  let s1 := runEpochs dyn args trainL validL stop args.epochs 1 s0
  let te := evalSteps dyn s1.params dyn.h0 testL
  let testLoss := ((te.2.map VBRec.loss).sum) / ((testL.length : ℚ))
  { trainLosses := s1.trainLosses, validLosses := s1.validLosses
    epochRecs := s1.epochRecs, sched := s1.sched, paramsAtTest := s1.params
    testRecs := te.2, testLoss := testLoss
    events := s1.events ++ testPassEvents te.2
    validWindows := validL, testWindows := testL
    outputs := if s1.trainLosses.length = s1.validLosses.length then
        some ((s1.trainLosses, s1.validLosses), (s1.sched.best, s1.sched.bestEpoch, testLoss))
      else none }

/-- Decoder width chosen at construction, main.py line 85: emb_dim when weights are tied,
hidden_dim otherwise. -/
def decoderHiddenDim (args : Args) : ℕ :=
  if args.tie_weights then args.emb_dim else args.hidden_dim

/-- Modelled from the spec: layers.AWDLSTMEncoder is imported at main.py line 14 but
layers.py is not under src. Spec section 4.3 fixes the width of the final recurrent
layer: emb_dim equals hidden_dim for the final layer when weights are tied, so the final
layer is emb_dim wide under tying and hidden_dim wide otherwise. -/
def encoderFinalDim (args : Args) : ℕ :=
  if args.tie_weights then args.emb_dim else args.hidden_dim

/-- Dimension soundness of weight tying: the embedding matrix is vocab by emb_dim and the
decoder weight is vocab by decoderHiddenDim, so tying aliases matrices of identical shape
exactly when the two widths agree. -/
def tieShapesOk (args : Args) : Bool :=
  args.emb_dim == decoderHiddenDim args

/-- Hidden state dataflow of a training pass starting from h: each record reads the
hidden state the previous one wrote, with nothing cleared in between. -/
def ChainFromT (h : H) : List (TBRec P H) → Prop
  | [] => True
  | r :: rs => r.hIn = h ∧ ChainFromT r.hOut rs

/-- Hidden state dataflow of an evaluation pass starting from h. -/
def ChainFromV (h : H) : List (VBRec H) → Prop
  | [] => True
  | r :: rs => r.hIn = h ∧ ChainFromV r.hOut rs

/-- Shape of every pair the epoch loop records: the training records are the output of a
training fold started at the zeroed hidden state, and the validation records the output
of an evaluation fold started at the zeroed hidden state. -/
def RecsShape (dyn : Dyn P H) (args : Args)
    (pr : List (TBRec P H) × List (VBRec H)) : Prop :=
  ∃ p lr ws p1 vs, pr.1 = (foldSteps dyn args (p, dyn.h0, lr) ws).2 ∧
    pr.2 = (evalSteps dyn p1 dyn.h0 vs).2

/-- Concrete oracle over natural number parameter and hidden types, used to witness the
theorems on concrete inputs. -/
def dynN : Dyn ℕ ℕ where
  h0 := 0
  fwdTrain := fun p h w => { rawLoss := (p : ℚ) + (w.x.length : ℚ)
                             rawOuts := [[[1], [2]], [[3], [5]]]
                             droppedOuts := [[[2]], [[4]]], hOut := h + 1 }
  step := fun p _ _ _ => p + 1
  fwdEval := fun p h _ => ((p : ℚ) + (h : ℚ), h + 1)

/-- Concrete hyperparameters with variable BPTT enabled, for witnesses. -/
def argsA : Args where
  lr := 30
  bptt := 3
  use_var_bptt := true
  anneal_factor := 4
  epochs := 2
  alpha := 2
  beta := 1
  emb_dim := 400
  hidden_dim := 1150
  num_layers := 3
  tie_weights := false

/-- Concrete hyperparameters with weight tying enabled and deliberately different
embedding and hidden widths, for the configuration claims. -/
def argsTie : Args where
  lr := 30
  bptt := 3
  use_var_bptt := false
  anneal_factor := 4
  epochs := 1
  alpha := 2
  beta := 1
  emb_dim := 10
  hidden_dim := 20
  num_layers := 3
  tie_weights := true

/-- Concrete token stream of twelve tokens, for witnesses. -/
def streamA : List ℕ := [3, 1, 4, 1, 5, 9, 2, 6, 5, 3, 5, 8]

/-- Concrete token stream of eight tokens, for counterexamples. -/
def streamB : List ℕ := [0, 1, 2, 3, 4, 5, 6, 7]

/-- Constant requested window length, standing for the random draws. -/
def reqA : ℕ → ℕ := fun _ => 5


theorem inputsFlat_cons (w : Window) (ws : List Window) :
    inputsFlat (w :: ws) = w.x ++ inputsFlat ws := by
  simp [inputsFlat]

theorem targetsFlat_cons (w : Window) (ws : List Window) :
    targetsFlat (w :: ws) = w.y ++ targetsFlat ws := by
  simp [targetsFlat]

theorem get_loadersGo_spec (stream : List ℕ) (use_var : Bool) (bptt : ℕ) (req : ℕ → ℕ)
    (hb : 1 ≤ bptt ∨ use_var = true) :
    ∀ (fuel t k : ℕ), stream.length - 1 - t ≤ fuel →
      ∃ T, inputsFlat (get_loadersGo stream use_var bptt req fuel t k)
            = (stream.drop t).take T
        ∧ targetsFlat (get_loadersGo stream use_var bptt req fuel t k)
            = (stream.drop (t + 1)).take T
        ∧ T ≤ stream.length - 1 - t
        ∧ stream.length - 1 - (t + T) ≤ 1 := by
  intro fuel
  induction fuel with
  | zero =>
    intro t k hf
    refine ⟨0, ?_, ?_, by omega, by omega⟩ <;>
      simp [get_loadersGo, inputsFlat, targetsFlat]
  | succ fuel ih =>
    intro t k hf
    by_cases hr : stream.length - 1 - t < 2
    · refine ⟨0, ?_, ?_, by omega, by omega⟩ <;>
        simp [get_loadersGo, hr, inputsFlat, targetsFlat]
    · have hbase : 1 ≤ (if use_var then max (req k) 5 else bptt) := by
        rcases hb with hb | hb
        · cases use_var
          · simpa using hb
          · simp
        · rw [hb]
          simp
      have hL : windowLenAt use_var bptt (req k) (stream.length - 1 - t)
          = min (if use_var then max (req k) 5 else bptt) (stream.length - 1 - t) := rfl
      have hL1 : 1 ≤ windowLenAt use_var bptt (req k) (stream.length - 1 - t) := by omega
      have hLle : windowLenAt use_var bptt (req k) (stream.length - 1 - t)
          ≤ stream.length - 1 - t := by omega
      set L := windowLenAt use_var bptt (req k) (stream.length - 1 - t) with hLdef
      have hgo : get_loadersGo stream use_var bptt req (fuel + 1) t k =
          { x := (stream.drop t).take L, y := (stream.drop (t + 1)).take L } ::
            get_loadersGo stream use_var bptt req fuel (t + L) (k + 1) := by
        simp only [get_loadersGo]
        rw [if_neg hr]
      obtain ⟨T, h1, h2, h3, h4⟩ := ih (t + L) (k + 1) (by omega)
      refine ⟨L + T, ?_, ?_, by omega, by omega⟩
      · rw [hgo, inputsFlat_cons, h1, List.take_add, List.drop_drop]
      · rw [hgo, targetsFlat_cons, h2, List.take_add, List.drop_drop,
          show t + 1 + L = t + L + 1 by omega]

theorem get_loadersGo_mem (stream : List ℕ) (use_var : Bool) (bptt : ℕ) (req : ℕ → ℕ)
    (hb : 1 ≤ bptt ∨ use_var = true) :
    ∀ (fuel t k : ℕ), ∀ w ∈ get_loadersGo stream use_var bptt req fuel t k,
      ∃ s1, w.x = (stream.drop s1).take w.x.length
        ∧ w.y = (stream.drop (s1 + 1)).take w.x.length
        ∧ 1 ≤ w.x.length
        ∧ w.x.length ≤ stream.length - 1 - s1
        ∧ (use_var = true →
            2 ≤ w.x.length ∧ (5 ≤ stream.length - 1 - s1 → 5 ≤ w.x.length)) := by
  intro fuel
  induction fuel with
  | zero =>
    intro t k w hw
    simp [get_loadersGo] at hw
  | succ fuel ih =>
    intro t k w hw
    by_cases hr : stream.length - 1 - t < 2
    · simp [get_loadersGo, hr] at hw
    · have hbase : 1 ≤ (if use_var then max (req k) 5 else bptt) := by
        rcases hb with hb | hb
        · cases use_var
          · simpa using hb
          · simp
        · rw [hb]
          simp
      have hL : windowLenAt use_var bptt (req k) (stream.length - 1 - t)
          = min (if use_var then max (req k) 5 else bptt) (stream.length - 1 - t) := rfl
      have hL1 : 1 ≤ windowLenAt use_var bptt (req k) (stream.length - 1 - t) := by omega
      have hLle : windowLenAt use_var bptt (req k) (stream.length - 1 - t)
          ≤ stream.length - 1 - t := by omega
      set L := windowLenAt use_var bptt (req k) (stream.length - 1 - t) with hLdef
      have hgo : get_loadersGo stream use_var bptt req (fuel + 1) t k =
          { x := (stream.drop t).take L, y := (stream.drop (t + 1)).take L } ::
            get_loadersGo stream use_var bptt req fuel (t + L) (k + 1) := by
        simp only [get_loadersGo]
        rw [if_neg hr]
      rw [hgo] at hw
      rcases List.mem_cons.mp hw with hw | hw
      · refine ⟨t, ?_⟩
        subst hw
        have hxlen : ((stream.drop t).take L).length = L := by
          simp only [List.length_take, List.length_drop]
          omega
        dsimp only
        rw [hxlen]
        refine ⟨rfl, rfl, by omega, by omega, ?_⟩
        intro hv
        rw [hv] at hL
        simp at hL
        omega
      · exact ih (t + L) (k + 1) w hw

/-- C4 is refuted on a concrete stream: for the eight token stream 0..7 with every
variable length draw equal to 5, the two windows are 0..4 and 5,6, so the concatenated
inputs miss the final token of the stream, and the second window is shorter than the
five token floor. -/
theorem c4_batcher_counterexample :
    inputsFlat (get_loaders streamB 80 reqA true) ≠ streamB ∧
    ∃ w ∈ get_loaders streamB 80 reqA true, w.x.length < 5 := by decide

/-- C4 (amended): the batcher windows the stream in order with shift by one targets, but
the concatenated inputs rebuild only the prefix of the stream that stops one or two
tokens before the end (the final token is only ever a target, and a leftover window
shorter than two tokens is dropped); each window length is at least one, at most the
usable remainder of the stream at its start, and in variable mode at least two, meeting
the five token floor only while at least five usable tokens remain. -/
theorem c4_batcher_amended (stream : List ℕ) (bptt : ℕ) (req : ℕ → ℕ) (use_var : Bool)
    (hb : 1 ≤ bptt ∨ use_var = true) :
    ∃ T, inputsFlat (get_loaders stream bptt req use_var) = stream.take T
      ∧ targetsFlat (get_loaders stream bptt req use_var) = (stream.drop 1).take T
      ∧ T ≤ stream.length - 1
      ∧ stream.length - 1 - T ≤ 1
      ∧ ∀ w ∈ get_loaders stream bptt req use_var,
          ∃ s1, w.x = (stream.drop s1).take w.x.length
            ∧ w.y = (stream.drop (s1 + 1)).take w.x.length
            ∧ 1 ≤ w.x.length
            ∧ w.x.length ≤ stream.length - 1 - s1
            ∧ (use_var = true →
                2 ≤ w.x.length ∧ (5 ≤ stream.length - 1 - s1 → 5 ≤ w.x.length)) := by
  obtain ⟨T, h1, h2, h3, h4⟩ :=
    get_loadersGo_spec stream use_var bptt req hb stream.length 0 0 (by omega)
  refine ⟨T, ?_, ?_, by omega, by omega, ?_⟩
  · simpa [get_loaders] using h1
  · simpa [get_loaders] using h2
  · intro w hw
    exact get_loadersGo_mem stream use_var bptt req hb stream.length 0 0 w hw

/-- Witness for the amended C4 on a concrete input: the standard mode batcher with base
length three over the twelve token stream. -/
theorem c4_witness :
    (1 ≤ 3 ∨ false = true) ∧
    (∃ T, inputsFlat (get_loaders streamA 3 reqA false) = streamA.take T
      ∧ targetsFlat (get_loaders streamA 3 reqA false) = (streamA.drop 1).take T
      ∧ T ≤ streamA.length - 1
      ∧ streamA.length - 1 - T ≤ 1
      ∧ ∀ w ∈ get_loaders streamA 3 reqA false,
          ∃ s1, w.x = (streamA.drop s1).take w.x.length
            ∧ w.y = (streamA.drop (s1 + 1)).take w.x.length
            ∧ 1 ≤ w.x.length
            ∧ w.x.length ≤ streamA.length - 1 - s1
            ∧ (false = true →
                2 ≤ w.x.length ∧ (5 ≤ streamA.length - 1 - s1 → 5 ≤ w.x.length))) :=
  ⟨Or.inl (by decide), c4_batcher_amended streamA 3 reqA false (Or.inl (by decide))⟩

theorem foldSteps_lr (dyn : Dyn P H) (args : Args) (hv : args.use_var_bptt = true) :
    ∀ (ws : List Window) (s : P × H × ℚ), ∀ r ∈ (foldSteps dyn args s ws).2,
      r.lrDuring = args.lr * (r.seqLen : ℚ) / (args.bptt : ℚ) ∧ r.lrAfter = args.lr := by
  intro ws
  induction ws with
  | nil =>
    intro s r hr
    simp [foldSteps] at hr
  | cons w ws ih =>
    intro s r hr
    obtain ⟨p, h, lr⟩ := s
    simp only [foldSteps] at hr
    rcases List.mem_cons.mp hr with hr | hr
    · subst hr
      simp [trainStep, hv]
    · exact ih _ r hr

theorem foldSteps_loss (dyn : Dyn P H) (args : Args) :
    ∀ (ws : List Window) (s : P × H × ℚ), ∀ r ∈ (foldSteps dyn args s ws).2,
      r.backLoss = batchLoss args r.rawLoss r.rawOuts r.droppedOuts := by
  intro ws
  induction ws with
  | nil =>
    intro s r hr
    simp [foldSteps] at hr
  | cons w ws ih =>
    intro s r hr
    obtain ⟨p, h, lr⟩ := s
    simp only [foldSteps] at hr
    rcases List.mem_cons.mp hr with hr | hr
    · subst hr
      simp [trainStep]
    · exact ih _ r hr

theorem foldSteps_chain (dyn : Dyn P H) (args : Args) :
    ∀ (ws : List Window) (p : P) (h : H) (lr : ℚ),
      ChainFromT h (foldSteps dyn args (p, h, lr) ws).2 := by
  intro ws
  induction ws with
  | nil =>
    intro p h lr
    simp [foldSteps, ChainFromT]
  | cons w ws ih =>
    intro p h lr
    simp only [foldSteps, trainStep, ChainFromT]
    exact ⟨trivial, ih _ _ _⟩

theorem evalSteps_chain (dyn : Dyn P H) (p : P) :
    ∀ (ws : List Window) (h : H), ChainFromV h (evalSteps dyn p h ws).2 := by
  intro ws
  induction ws with
  | nil =>
    intro h
    simp [evalSteps, ChainFromV]
  | cons w ws ih =>
    intro h
    simp only [evalSteps, ChainFromV]
    exact ⟨trivial, ih _⟩

theorem evalSteps_len (dyn : Dyn P H) (p : P) :
    ∀ (ws : List Window) (h : H), (evalSteps dyn p h ws).2.length = ws.length := by
  intro ws
  induction ws with
  | nil =>
    intro h
    simp [evalSteps]
  | cons w ws ih =>
    intro h
    simp only [evalSteps, List.length_cons]
    rw [ih]

theorem foldSteps_last_pOut (dyn : Dyn P H) (args : Args) :
    ∀ (ws : List Window) (s : P × H × ℚ) (r : TBRec P H),
      (foldSteps dyn args s ws).2.getLast? = some r →
      (foldSteps dyn args s ws).1.1 = r.pOut := by
  intro ws
  induction ws with
  | nil =>
    intro s r hr
    simp [foldSteps] at hr
  | cons w ws ih =>
    intro s r hr
    cases ws with
    | nil =>
      obtain ⟨p, h, lr⟩ := s
      simp only [foldSteps, List.getLast?_singleton, Option.some.injEq] at hr
      subst hr
      rfl
    | cons w1 ws1 =>
      simp only [foldSteps] at hr ⊢
      rw [List.getLast?_cons_cons] at hr
      exact ih (trainStep dyn args s w).1 r hr

theorem runEpochs_shape (dyn : Dyn P H) (args : Args) (trainL validL : List Window)
    (stop : Stop) :
    ∀ (n e : ℕ) (s : LoopState P H),
      (∀ pr ∈ s.epochRecs, RecsShape dyn args pr) →
      ∀ pr ∈ (runEpochs dyn args trainL validL stop n e s).epochRecs,
        RecsShape dyn args pr := by
  intro n
  induction n with
  | zero =>
    intro e s hs pr hpr
    exact hs pr hpr
  | succ n ih =>
    intro e s hs pr hpr
    simp only [runEpochs] at hpr
    cases hi : interruptAt stop e with
    | none =>
      rw [hi] at hpr
      refine ih (e + 1) _ ?_ pr hpr
      intro pr2 hpr2
      simp only [fullEpoch] at hpr2
      rcases List.mem_append.mp hpr2 with hp | hp
      · exact hs pr2 hp
      · rcases List.mem_singleton.mp hp with rfl
        exact ⟨s.params, s.sched.lr, trainL, _, validL, rfl, rfl⟩
    | some pb =>
      obtain ⟨phase, b⟩ := pb
      rw [hi] at hpr
      cases phase
      · simp only [interruptedValidEpoch] at hpr
        rcases List.mem_append.mp hpr with hp | hp
        · exact hs pr hp
        · rcases List.mem_singleton.mp hp with rfl
          exact ⟨s.params, s.sched.lr, trainL, _, validL.take b, rfl, rfl⟩
      · simp only [interruptedTrainEpoch] at hpr
        rcases List.mem_append.mp hpr with hp | hp
        · exact hs pr hp
        · rcases List.mem_singleton.mp hp with rfl
          exact ⟨s.params, s.sched.lr, trainL.take b, s.params, [],
            rfl, by simp [evalSteps]⟩

theorem runProgram_shape (dyn : Dyn P H) (args : Args) (p0 : P)
    (trainS validS testS : List ℕ) (req : ℕ → ℕ) (stop : Stop) :
    ∀ pr ∈ (runProgram dyn args p0 trainS validS testS req stop).epochRecs,
      RecsShape dyn args pr := by
  intro pr hpr
  simp only [runProgram] at hpr
  refine runEpochs_shape dyn args _ _ stop args.epochs 1 _ ?_ pr hpr
  intro pr2 hpr2
  simp at hpr2

/-- C1: in variable BPTT mode, during every gradient step of every training window of any
run the optimizer learning rate equals the base rate times the window length over the
base BPTT length, and right after the step it is restored to exactly the base rate. -/
theorem c1_var_bptt_lr_rescale (dyn : Dyn P H) (args : Args) (p0 : P)
    (trainS validS testS : List ℕ) (req : ℕ → ℕ) (stop : Stop)
    (hv : args.use_var_bptt = true) :
    ∀ pr ∈ (runProgram dyn args p0 trainS validS testS req stop).epochRecs,
      ∀ r ∈ pr.1,
        r.lrDuring = args.lr * (r.seqLen : ℚ) / (args.bptt : ℚ) ∧ r.lrAfter = args.lr := by
  intro pr hpr r hr
  obtain ⟨p, lr, ws, p1, vs, h1, h2⟩ :=
    runProgram_shape dyn args p0 trainS validS testS req stop pr hpr
  rw [h1] at hr
  exact foldSteps_lr dyn args hv ws (p, dyn.h0, lr) r hr

/-- Witness for C1 on the concrete run. -/
theorem c1_witness :
    argsA.use_var_bptt = true ∧
    (∀ pr ∈ (runProgram dynN argsA 0 streamA streamA streamA reqA Stop.never).epochRecs,
      ∀ r ∈ pr.1,
        r.lrDuring = argsA.lr * (r.seqLen : ℚ) / (argsA.bptt : ℚ) ∧ r.lrAfter = argsA.lr) :=
  ⟨rfl, c1_var_bptt_lr_rescale dynN argsA 0 streamA streamA streamA reqA Stop.never rfl⟩

/-- C2: in every training batch of any run, the loss whose gradient is taken is the raw
cross entropy plus alpha times the mean square of the dropped output of the last layer
plus beta times the mean square of the consecutive differences of the raw output of the
last layer; the loss depends on the returned per layer lists only through their last
entries, even though all layers are returned. -/
theorem c2_loss_formula (dyn : Dyn P H) (args : Args) (p0 : P)
    (trainS validS testS : List ℕ) (req : ℕ → ℕ) (stop : Stop) :
    (∀ pr ∈ (runProgram dyn args p0 trainS validS testS req stop).epochRecs,
      ∀ r ∈ pr.1,
        r.backLoss = r.rawLoss + args.alpha * tmean (sqTensor (r.droppedOuts.getLastD []))
          + args.beta * tmean (sqTensor (tdiff (r.rawOuts.getLastD [])))) ∧
    (∀ (l : ℚ) (ro dro ro1 dro1 : List (List (List ℚ))),
      ro.getLastD [] = ro1.getLastD [] → dro.getLastD [] = dro1.getLastD [] →
      batchLoss args l ro dro = batchLoss args l ro1 dro1) := by
  constructor
  · intro pr hpr r hr
    obtain ⟨p, lr, ws, p1, vs, h1, h2⟩ :=
      runProgram_shape dyn args p0 trainS validS testS req stop pr hpr
    rw [h1] at hr
    have := foldSteps_loss dyn args ws (p, dyn.h0, lr) r hr
    rw [this, batchLoss]
  · intro l ro dro ro1 dro1 hro hdro
    rw [batchLoss, batchLoss, hro, hdro]

/-- Witness for C2 on the concrete run. -/
theorem c2_witness :
    (∀ pr ∈ (runProgram dynN argsA 0 streamA streamA streamA reqA Stop.never).epochRecs,
      ∀ r ∈ pr.1,
        r.backLoss = r.rawLoss + argsA.alpha * tmean (sqTensor (r.droppedOuts.getLastD []))
          + argsA.beta * tmean (sqTensor (tdiff (r.rawOuts.getLastD [])))) ∧
    (∀ (l : ℚ) (ro dro ro1 dro1 : List (List (List ℚ))),
      ro.getLastD [] = ro1.getLastD [] → dro.getLastD [] = dro1.getLastD [] →
      batchLoss argsA l ro dro = batchLoss argsA l ro1 dro1) :=
  c2_loss_formula dynN argsA 0 streamA streamA streamA reqA Stop.never

theorem epochEnd_best (args : Args) (e : ℕ) (v : ℚ) (p : P) (s : Sched P) :
    (epochEnd args e v p s).best = minOpt s.best v := by
  cases hb : s.best with
  | none => simp [epochEnd, improves, hb, minOpt]
  | some b =>
    by_cases hv : v < b
    · simp [epochEnd, improves, hb, hv, minOpt, min_eq_right (le_of_lt hv)]
    · simp [epochEnd, improves, hb, hv, minOpt, min_eq_left (le_of_not_lt hv)]

theorem runEpochs_best_inv (dyn : Dyn P H) (args : Args) (trainL validL : List Window) :
    ∀ (n e : ℕ) (s : LoopState P H),
      s.sched.best = s.validLosses.foldl minOpt none →
      (runEpochs dyn args trainL validL Stop.never n e s).sched.best =
        (runEpochs dyn args trainL validL Stop.never n e s).validLosses.foldl minOpt none := by
  intro n
  induction n with
  | zero =>
    intro e s hs
    exact hs
  | succ n ih =>
    intro e s hs
    simp only [runEpochs, interruptAt]
    refine ih (e + 1) _ ?_
    simp only [fullEpoch]
    rw [epochEnd_best, List.foldl_append]
    simp only [List.foldl_cons, List.foldl_nil]
    rw [hs]

/-- C3: after an epoch the checkpoint is overwritten with the current parameters and the
best epoch recorded exactly when the validation loss strictly improves on the best so
far; on non improvement the checkpoint, best loss and best epoch are untouched and the
learning rate is divided by the anneal factor only when variable BPTT is disabled. The
best so far maintained by the run is the running minimum of all validation losses, with
none standing for the initial infinity. -/
theorem c3_checkpoint_anneal (dyn : Dyn P H) (args : Args) (e : ℕ) (v : ℚ) (p : P)
    (s : Sched P) (p0 : P) (trainS validS testS : List ℕ) (req : ℕ → ℕ) :
    (improves v s.best = true →
      epochEnd args e v p s =
        { best := some v, bestEpoch := e, lr := s.lr, ckpt := some p }) ∧
    (improves v s.best = false →
      (epochEnd args e v p s).ckpt = s.ckpt ∧
      (epochEnd args e v p s).best = s.best ∧
      (epochEnd args e v p s).bestEpoch = s.bestEpoch ∧
      (epochEnd args e v p s).lr =
        (if args.use_var_bptt then s.lr else s.lr / args.anneal_factor)) ∧
    ((epochEnd args e v p s).best = minOpt s.best v) ∧
    (∀ b0 : ℚ, improves v (some b0) = true ↔ v < b0) ∧
    ((runProgram dyn args p0 trainS validS testS req Stop.never).sched.best =
      (runProgram dyn args p0 trainS validS testS req Stop.never).validLosses.foldl
        minOpt none) := by
  refine ⟨?_, ?_, epochEnd_best args e v p s, ?_, ?_⟩
  · intro hi
    simp [epochEnd, hi]
  · intro hi
    simp [epochEnd, hi]
  · intro b0
    simp [improves]
  · simp only [runProgram]
    exact runEpochs_best_inv dyn args _ _ args.epochs 1 _ rfl

/-- Witness for C3 on concrete scheduler state and run. -/
theorem c3_witness :
    (improves 3 (⟨some 5, 1, 30, some 7⟩ : Sched ℕ).best = true →
      epochEnd argsA 2 3 9 (⟨some 5, 1, 30, some 7⟩ : Sched ℕ) =
        { best := some 3, bestEpoch := 2, lr := (⟨some 5, 1, 30, some 7⟩ : Sched ℕ).lr,
          ckpt := some 9 }) ∧
    (improves 3 (⟨some 5, 1, 30, some 7⟩ : Sched ℕ).best = false →
      (epochEnd argsA 2 3 9 (⟨some 5, 1, 30, some 7⟩ : Sched ℕ)).ckpt =
        (⟨some 5, 1, 30, some 7⟩ : Sched ℕ).ckpt ∧
      (epochEnd argsA 2 3 9 (⟨some 5, 1, 30, some 7⟩ : Sched ℕ)).best =
        (⟨some 5, 1, 30, some 7⟩ : Sched ℕ).best ∧
      (epochEnd argsA 2 3 9 (⟨some 5, 1, 30, some 7⟩ : Sched ℕ)).bestEpoch =
        (⟨some 5, 1, 30, some 7⟩ : Sched ℕ).bestEpoch ∧
      (epochEnd argsA 2 3 9 (⟨some 5, 1, 30, some 7⟩ : Sched ℕ)).lr =
        (if argsA.use_var_bptt then (⟨some 5, 1, 30, some 7⟩ : Sched ℕ).lr
         else (⟨some 5, 1, 30, some 7⟩ : Sched ℕ).lr / argsA.anneal_factor)) ∧
    ((epochEnd argsA 2 3 9 (⟨some 5, 1, 30, some 7⟩ : Sched ℕ)).best =
      minOpt (⟨some 5, 1, 30, some 7⟩ : Sched ℕ).best 3) ∧
    (∀ b0 : ℚ, improves 3 (some b0) = true ↔ (3 : ℚ) < b0) ∧
    ((runProgram dynN argsA 0 streamA streamA streamA reqA Stop.never).sched.best =
      (runProgram dynN argsA 0 streamA streamA streamA reqA Stop.never).validLosses.foldl
        minOpt none) :=
  c3_checkpoint_anneal dynN argsA 2 3 9 ⟨some 5, 1, 30, some 7⟩ 0 streamA streamA streamA reqA

theorem runEpochs_report_inv (dyn : Dyn P H) (args : Args) (trainL validL : List Window) :
    ∀ (n e : ℕ) (s : LoopState P H),
      s.trainLosses = s.epochRecs.map
        (fun pr => ((pr.1.map TBRec.rawLoss).sum) / ((trainL.length : ℚ))) →
      s.validLosses = s.epochRecs.map
        (fun pr => ((pr.2.map VBRec.loss).sum) / ((validL.length : ℚ))) →
      (runEpochs dyn args trainL validL Stop.never n e s).trainLosses =
        (runEpochs dyn args trainL validL Stop.never n e s).epochRecs.map
          (fun pr => ((pr.1.map TBRec.rawLoss).sum) / ((trainL.length : ℚ))) ∧
      (runEpochs dyn args trainL validL Stop.never n e s).validLosses =
        (runEpochs dyn args trainL validL Stop.never n e s).epochRecs.map
          (fun pr => ((pr.2.map VBRec.loss).sum) / ((validL.length : ℚ))) := by
  intro n
  induction n with
  | zero =>
    intro e s h1 h2
    exact ⟨h1, h2⟩
  | succ n ih =>
    intro e s h1 h2
    simp only [runEpochs, interruptAt]
    refine ih (e + 1) _ ?_ ?_
    · simp only [fullEpoch, List.map_append, List.map_cons, List.map_nil]
      rw [← h1]
    · simp only [fullEpoch, List.map_append, List.map_cons, List.map_nil]
      rw [← h2]

/-- C6: all three reported quantities are arithmetic means over batches of the raw cross
entropy alone. Each per epoch train loss is the mean of the recorded raw cross entropies
of that epoch (the AR and TAR terms live only in the backpropagated loss field), each
validation loss is the mean of the evaluation criterion values, and the test loss is the
mean of the evaluation criterion values of the test pass; evaluation batches come from
the gradient free evaluation oracle, which neither adds penalties nor updates
parameters. -/
theorem c6_reported_losses (dyn : Dyn P H) (args : Args) (p0 : P)
    (trainS validS testS : List ℕ) (req : ℕ → ℕ) :
    (runProgram dyn args p0 trainS validS testS req Stop.never).trainLosses =
      (runProgram dyn args p0 trainS validS testS req Stop.never).epochRecs.map
        (fun pr => ((pr.1.map TBRec.rawLoss).sum) /
          (((get_loaders trainS args.bptt req args.use_var_bptt).length : ℚ))) ∧
    (runProgram dyn args p0 trainS validS testS req Stop.never).validLosses =
      (runProgram dyn args p0 trainS validS testS req Stop.never).epochRecs.map
        (fun pr => ((pr.2.map VBRec.loss).sum) /
          (((get_loaders validS args.bptt req false).length : ℚ))) ∧
    (runProgram dyn args p0 trainS validS testS req Stop.never).testLoss =
      (((runProgram dyn args p0 trainS validS testS req Stop.never).testRecs.map
        VBRec.loss).sum) / (((get_loaders testS args.bptt req false).length : ℚ)) := by
  have h := runEpochs_report_inv dyn args
    (get_loaders trainS args.bptt req args.use_var_bptt)
    (get_loaders validS args.bptt req false) args.epochs 1
    { params := p0
      hidden := dyn.h0
      sched := { best := none, bestEpoch := 0, lr := args.lr, ckpt := none }
      trainLosses := [], validLosses := [], epochRecs := [], events := [] }
    rfl rfl
  exact ⟨h.1, h.2, rfl⟩

theorem reset_not_mem_recEvents (args : Args) (r : TBRec P H) :
    Ev.reset ∉ recEvents args r := by
  cases h : args.use_var_bptt <;> simp [recEvents, h]

theorem count_reset_trainPassEvents (args : Args) (recs : List (TBRec P H)) :
    (trainPassEvents args recs).count Ev.reset = 1 := by
  rw [trainPassEvents, List.count_cons_self]
  rw [List.count_eq_zero.mpr]
  intro hmem
  rcases List.mem_flatten.mp hmem with ⟨l, hl, hml⟩
  rcases List.mem_map.mp hl with ⟨r, _, rfl⟩
  exact reset_not_mem_recEvents args r hml

theorem count_reset_validPassEvents (recs : List (VBRec H)) :
    (validPassEvents recs).count Ev.reset = 1 := by
  rw [validPassEvents, List.count_cons_self]
  rw [List.count_eq_zero.mpr]
  intro hmem
  rcases List.mem_map.mp hmem with ⟨r, _, hr⟩
  exact Ev.noConfusion hr

theorem count_reset_testPassEvents (recs : List (VBRec H)) :
    (testPassEvents recs).count Ev.reset = 1 := by
  rw [testPassEvents, List.count_cons_self]
  rw [List.count_eq_zero.mpr]
  intro hmem
  rcases List.mem_map.mp hmem with ⟨r, _, hr⟩
  exact Ev.noConfusion hr

theorem runEpochs_resets (dyn : Dyn P H) (args : Args) (trainL validL : List Window) :
    ∀ (n e : ℕ) (s : LoopState P H),
      (runEpochs dyn args trainL validL Stop.never n e s).events.count Ev.reset =
        s.events.count Ev.reset + 2 * n := by
  intro n
  induction n with
  | zero =>
    intro e s
    simp [runEpochs]
  | succ n ih =>
    intro e s
    simp only [runEpochs, interruptAt]
    rw [ih]
    simp only [fullEpoch, List.count_append]
    rw [count_reset_trainPassEvents, count_reset_validPassEvents]
    have hz : (if improves
        (((evalSteps dyn (foldSteps dyn args (s.params, dyn.h0, s.sched.lr) trainL).1.1
            dyn.h0 validL).2.map VBRec.loss).sum / ((validL.length : ℚ)))
        ({ s.sched with lr := (foldSteps dyn args
            (s.params, dyn.h0, s.sched.lr) trainL).1.2.2 } : Sched P).best
        || args.use_var_bptt then ([] : List Ev)
       else [.annealLR (({ s.sched with lr := (foldSteps dyn args
            (s.params, dyn.h0, s.sched.lr) trainL).1.2.2 } : Sched P).lr /
            args.anneal_factor)]).count Ev.reset = 0 := by
      split <;> simp
    rw [hz]
    ring

theorem fullEpoch_lengths (dyn : Dyn P H) (args : Args) (trainL validL : List Window)
    (e : ℕ) (s : LoopState P H) :
    (fullEpoch dyn args trainL validL e s).trainLosses.length =
      s.trainLosses.length + 1 ∧
    (fullEpoch dyn args trainL validL e s).validLosses.length =
      s.validLosses.length + 1 ∧
    (fullEpoch dyn args trainL validL e s).epochRecs.length =
      s.epochRecs.length + 1 := by
  simp [fullEpoch]

theorem runEpochs_never_lengths (dyn : Dyn P H) (args : Args) (trainL validL : List Window) :
    ∀ (n e : ℕ) (s : LoopState P H),
      (runEpochs dyn args trainL validL Stop.never n e s).trainLosses.length =
        s.trainLosses.length + n ∧
      (runEpochs dyn args trainL validL Stop.never n e s).validLosses.length =
        s.validLosses.length + n ∧
      (runEpochs dyn args trainL validL Stop.never n e s).epochRecs.length =
        s.epochRecs.length + n := by
  intro n
  induction n with
  | zero =>
    intro e s
    simp [runEpochs]
  | succ n ih =>
    intro e s
    have h := ih (e + 1) (fullEpoch dyn args trainL validL e s)
    have hf := fullEpoch_lengths dyn args trainL validL e s
    simp only [runEpochs, interruptAt]
    omega

/-- C7: over a full run, reset_hidden fires exactly two times per epoch plus once for the
test pass (once at the start of every training, validation and test pass); within every
pass the hidden state entering each batch is exactly the hidden state the previous batch
produced, starting from the zeroed state, so state persists across windows and is never
cleared mid pass. -/
theorem c7_reset_hidden (dyn : Dyn P H) (args : Args) (p0 : P)
    (trainS validS testS : List ℕ) (req : ℕ → ℕ) :
    (runProgram dyn args p0 trainS validS testS req Stop.never).events.count Ev.reset =
      2 * args.epochs + 1 ∧
    (runProgram dyn args p0 trainS validS testS req Stop.never).epochRecs.length =
      args.epochs ∧
    (∀ pr ∈ (runProgram dyn args p0 trainS validS testS req Stop.never).epochRecs,
      ChainFromT dyn.h0 pr.1 ∧ ChainFromV dyn.h0 pr.2) ∧
    ChainFromV dyn.h0 (runProgram dyn args p0 trainS validS testS req Stop.never).testRecs := by
  refine ⟨?_, ?_, ?_, ?_⟩
  · simp only [runProgram, List.count_append]
    rw [runEpochs_resets, count_reset_testPassEvents]
    simp
  · simp only [runProgram]
    have h := runEpochs_never_lengths dyn args
      (get_loaders trainS args.bptt req args.use_var_bptt)
      (get_loaders validS args.bptt req false) args.epochs 1
      { params := p0
        hidden := dyn.h0
        sched := { best := none, bestEpoch := 0, lr := args.lr, ckpt := none }
        trainLosses := [], validLosses := [], epochRecs := [], events := [] }
    simpa using h.2.2
  · intro pr hpr
    obtain ⟨p, lr, ws, p1, vs, h1, h2⟩ :=
      runProgram_shape dyn args p0 trainS validS testS req Stop.never pr hpr
    rw [h1, h2]
    exact ⟨foldSteps_chain dyn args ws p dyn.h0 lr, evalSteps_chain dyn p1 vs dyn.h0⟩
  · simp only [runProgram]
    exact evalSteps_chain dyn _ _ _

/-- Witness for C7 on the concrete run. -/
theorem c7_witness :
    (runProgram dynN argsA 0 streamA streamA streamA reqA Stop.never).events.count Ev.reset =
      2 * argsA.epochs + 1 ∧
    (runProgram dynN argsA 0 streamA streamA streamA reqA Stop.never).epochRecs.length =
      argsA.epochs ∧
    (∀ pr ∈ (runProgram dynN argsA 0 streamA streamA streamA reqA Stop.never).epochRecs,
      ChainFromT dynN.h0 pr.1 ∧ ChainFromV dynN.h0 pr.2) ∧
    ChainFromV dynN.h0
      (runProgram dynN argsA 0 streamA streamA streamA reqA Stop.never).testRecs :=
  c7_reset_hidden dynN argsA 0 streamA streamA streamA reqA

theorem runEpochs_train_interrupt (dyn : Dyn P H) (args : Args) (trainL validL : List Window)
    (e b : ℕ) :
    ∀ (n k : ℕ) (s : LoopState P H), k ≤ e → e < k + n →
      runEpochs dyn args trainL validL (Stop.duringTrain e b) n k s =
        interruptedTrainEpoch dyn args trainL b
          (runEpochs dyn args trainL validL Stop.never (e - k) k s) := by
  intro n
  induction n with
  | zero =>
    intro k s hk1 hk2
    omega
  | succ n ih =>
    intro k s hk1 hk2
    by_cases hk : k = e
    · subst hk
      have hred : interruptAt (Stop.duringTrain k b) k = some (true, b) := by
        simp [interruptAt]
      simp only [runEpochs, hred]
      rw [Nat.sub_self]
      rfl
    · have hred : interruptAt (Stop.duringTrain e b) k = none := by
        simp [interruptAt, hk]
      simp only [runEpochs, hred]
      rw [ih (k + 1) (fullEpoch dyn args trainL validL k s) (by omega) (by omega)]
      have he : e - k = (e - (k + 1)) + 1 := by omega
      rw [he]
      simp only [runEpochs, interruptAt]

theorem runEpochs_valid_interrupt (dyn : Dyn P H) (args : Args) (trainL validL : List Window)
    (e b : ℕ) :
    ∀ (n k : ℕ) (s : LoopState P H), k ≤ e → e < k + n →
      runEpochs dyn args trainL validL (Stop.duringValid e b) n k s =
        interruptedValidEpoch dyn args trainL validL b
          (runEpochs dyn args trainL validL Stop.never (e - k) k s) := by
  intro n
  induction n with
  | zero =>
    intro k s hk1 hk2
    omega
  | succ n ih =>
    intro k s hk1 hk2
    by_cases hk : k = e
    · subst hk
      have hred : interruptAt (Stop.duringValid k b) k = some (false, b) := by
        simp [interruptAt]
      simp only [runEpochs, hred]
      rw [Nat.sub_self]
      rfl
    · have hred : interruptAt (Stop.duringValid e b) k = none := by
        simp [interruptAt, hk]
      simp only [runEpochs, hred]
      rw [ih (k + 1) (fullEpoch dyn args trainL validL k s) (by omega) (by omega)]
      have he : e - k = (e - (k + 1)) + 1 := by omega
      rw [he]
      simp only [runEpochs, interruptAt]

/-- C5: a KeyboardInterrupt anywhere in the epoch loop of epoch e, whether it lands in
the training pass or in the validation pass, skips all remaining epochs (exactly e pass
pairs were started, e minus one validation losses were reported, and the train loss of
epoch e was reported only when the interrupt fell in its validation pass), and the run
proceeds directly to the test evaluation, which runs the evaluation loop on the
parameters currently in memory: the parameters written by the very last optimizer step
before the interrupt, not the checkpointed best. -/
theorem c5_interrupt_to_test (dyn : Dyn P H) (args : Args) (p0 : P)
    (trainS validS testS : List ℕ) (req : ℕ → ℕ) (stop : Stop) (e b : ℕ)
    (hstop : stop = Stop.duringTrain e b ∨ stop = Stop.duringValid e b)
    (h1 : 1 ≤ e) (h2 : e ≤ args.epochs) :
    ((stop = Stop.duringTrain e b →
      (runProgram dyn args p0 trainS validS testS req stop).trainLosses.length = e - 1) ∧
     (stop = Stop.duringValid e b →
      (runProgram dyn args p0 trainS validS testS req stop).trainLosses.length = e)) ∧
    (runProgram dyn args p0 trainS validS testS req stop).validLosses.length = e - 1 ∧
    (runProgram dyn args p0 trainS validS testS req stop).epochRecs.length = e ∧
    (runProgram dyn args p0 trainS validS testS req stop).testRecs =
      (evalSteps dyn
        (runProgram dyn args p0 trainS validS testS req stop).paramsAtTest
        dyn.h0 (get_loaders testS args.bptt req false)).2 ∧
    (runProgram dyn args p0 trainS validS testS req stop).testLoss =
      (((runProgram dyn args p0 trainS validS testS req stop).testRecs.map
        VBRec.loss).sum) / (((get_loaders testS args.bptt req false).length : ℚ)) ∧
    (∀ (pr : List (TBRec P H) × List (VBRec H)) (rec : TBRec P H),
      (runProgram dyn args p0 trainS validS testS req stop).epochRecs.getLast? = some pr →
      pr.1.getLast? = some rec →
      (runProgram dyn args p0 trainS validS testS req stop).paramsAtTest = rec.pOut) := by
  have hlen := runEpochs_never_lengths dyn args
    (get_loaders trainS args.bptt req args.use_var_bptt)
    (get_loaders validS args.bptt req false) (e - 1) 1
    { params := p0
      hidden := dyn.h0
      sched := { best := none, bestEpoch := 0, lr := args.lr, ckpt := none }
      trainLosses := [], validLosses := [], epochRecs := [], events := [] }
  rcases hstop with rfl | rfl
  · have hfact := runEpochs_train_interrupt dyn args
      (get_loaders trainS args.bptt req args.use_var_bptt)
      (get_loaders validS args.bptt req false) e b args.epochs 1
      { params := p0
        hidden := dyn.h0
        sched := { best := none, bestEpoch := 0, lr := args.lr, ckpt := none }
        trainLosses := [], validLosses := [], epochRecs := [], events := [] }
      h1 (by omega)
    have ht : (runProgram dyn args p0 trainS validS testS req
        (Stop.duringTrain e b)).trainLosses.length = e - 1 := by
      simp only [runProgram]
      rw [hfact]
      simp only [interruptedTrainEpoch]
      have h3 := hlen.1
      simp only [List.length_nil] at h3
      omega
    have hv : (runProgram dyn args p0 trainS validS testS req
        (Stop.duringTrain e b)).validLosses.length = e - 1 := by
      simp only [runProgram]
      rw [hfact]
      simp only [interruptedTrainEpoch]
      have h3 := hlen.2.1
      simp only [List.length_nil] at h3
      omega
    have hr : (runProgram dyn args p0 trainS validS testS req
        (Stop.duringTrain e b)).epochRecs.length = e := by
      simp only [runProgram]
      rw [hfact]
      simp only [interruptedTrainEpoch, List.length_append, List.length_cons,
        List.length_nil]
      have h3 := hlen.2.2
      simp only [List.length_nil] at h3
      omega
    refine ⟨⟨fun _ => ht, fun hh => Stop.noConfusion hh⟩, hv, hr, rfl, rfl, ?_⟩
    intro pr rec hpr hrec
    simp only [runProgram] at hpr ⊢
    rw [hfact] at hpr ⊢
    simp only [interruptedTrainEpoch] at hpr ⊢
    rw [List.getLast?_concat] at hpr
    obtain rfl := Option.some.inj hpr
    exact foldSteps_last_pOut dyn args _ _ rec hrec
  · have hfact := runEpochs_valid_interrupt dyn args
      (get_loaders trainS args.bptt req args.use_var_bptt)
      (get_loaders validS args.bptt req false) e b args.epochs 1
      { params := p0
        hidden := dyn.h0
        sched := { best := none, bestEpoch := 0, lr := args.lr, ckpt := none }
        trainLosses := [], validLosses := [], epochRecs := [], events := [] }
      h1 (by omega)
    have ht : (runProgram dyn args p0 trainS validS testS req
        (Stop.duringValid e b)).trainLosses.length = e := by
      simp only [runProgram]
      rw [hfact]
      simp only [interruptedValidEpoch, List.length_append, List.length_cons,
        List.length_nil]
      have h3 := hlen.1
      simp only [List.length_nil] at h3
      omega
    have hv : (runProgram dyn args p0 trainS validS testS req
        (Stop.duringValid e b)).validLosses.length = e - 1 := by
      simp only [runProgram]
      rw [hfact]
      simp only [interruptedValidEpoch]
      have h3 := hlen.2.1
      simp only [List.length_nil] at h3
      omega
    have hr : (runProgram dyn args p0 trainS validS testS req
        (Stop.duringValid e b)).epochRecs.length = e := by
      simp only [runProgram]
      rw [hfact]
      simp only [interruptedValidEpoch, List.length_append, List.length_cons,
        List.length_nil]
      have h3 := hlen.2.2
      simp only [List.length_nil] at h3
      omega
    refine ⟨⟨fun hh => Stop.noConfusion hh, fun _ => ht⟩, hv, hr, rfl, rfl, ?_⟩
    intro pr rec hpr hrec
    simp only [runProgram] at hpr ⊢
    rw [hfact] at hpr ⊢
    simp only [interruptedValidEpoch] at hpr ⊢
    rw [List.getLast?_concat] at hpr
    obtain rfl := Option.some.inj hpr
    exact foldSteps_last_pOut dyn args _ _ rec hrec

/-- Witness for C5: interrupt during the validation pass of epoch two after one batch. -/
theorem c5_witness :
    (Stop.duringValid 2 1 = Stop.duringTrain 2 1 ∨
      Stop.duringValid 2 1 = Stop.duringValid 2 1) ∧
    1 ≤ 2 ∧ 2 ≤ argsA.epochs ∧
    (((Stop.duringValid 2 1 = Stop.duringTrain 2 1 →
      (runProgram dynN argsA 0 streamA streamA streamA reqA
        (Stop.duringValid 2 1)).trainLosses.length = 2 - 1) ∧
     (Stop.duringValid 2 1 = Stop.duringValid 2 1 →
      (runProgram dynN argsA 0 streamA streamA streamA reqA
        (Stop.duringValid 2 1)).trainLosses.length = 2)) ∧
    (runProgram dynN argsA 0 streamA streamA streamA reqA
      (Stop.duringValid 2 1)).validLosses.length = 2 - 1 ∧
    (runProgram dynN argsA 0 streamA streamA streamA reqA
      (Stop.duringValid 2 1)).epochRecs.length = 2 ∧
    (runProgram dynN argsA 0 streamA streamA streamA reqA
      (Stop.duringValid 2 1)).testRecs =
      (evalSteps dynN
        (runProgram dynN argsA 0 streamA streamA streamA reqA
          (Stop.duringValid 2 1)).paramsAtTest
        dynN.h0 (get_loaders streamA argsA.bptt reqA false)).2 ∧
    (runProgram dynN argsA 0 streamA streamA streamA reqA
      (Stop.duringValid 2 1)).testLoss =
      (((runProgram dynN argsA 0 streamA streamA streamA reqA
        (Stop.duringValid 2 1)).testRecs.map VBRec.loss).sum) /
        (((get_loaders streamA argsA.bptt reqA false).length : ℚ)) ∧
    (∀ (pr : List (TBRec ℕ ℕ) × List (VBRec ℕ)) (rec : TBRec ℕ ℕ),
      (runProgram dynN argsA 0 streamA streamA streamA reqA
        (Stop.duringValid 2 1)).epochRecs.getLast? = some pr →
      pr.1.getLast? = some rec →
      (runProgram dynN argsA 0 streamA streamA streamA reqA
        (Stop.duringValid 2 1)).paramsAtTest = rec.pOut)) :=
  ⟨Or.inr rfl, by decide, by decide,
    c5_interrupt_to_test dynN argsA 0 streamA streamA streamA reqA
      (Stop.duringValid 2 1) 2 1 (Or.inr rfl) (by decide) (by decide)⟩

/-- C10: the CSV and the summary are produced exactly when the two loss columns have
equal length, and a KeyboardInterrupt falling between the train loss append and the
validation loss append of epoch e leaves e train losses against e minus one validation
losses, so after the test evaluation (which still runs over the whole test loader) the
DataFrame construction fails and neither output file is written. -/
theorem c10_csv_after_interrupt (dyn : Dyn P H) (args : Args) (p0 : P)
    (trainS validS testS : List ℕ) (req : ℕ → ℕ) (e b : ℕ)
    (h1 : 1 ≤ e) (h2 : e ≤ args.epochs) :
    (∀ stop : Stop,
      (runProgram dyn args p0 trainS validS testS req stop).outputs = none ↔
        ¬((runProgram dyn args p0 trainS validS testS req stop).trainLosses.length =
          (runProgram dyn args p0 trainS validS testS req stop).validLosses.length)) ∧
    (runProgram dyn args p0 trainS validS testS req
      (Stop.duringValid e b)).trainLosses.length = e ∧
    (runProgram dyn args p0 trainS validS testS req
      (Stop.duringValid e b)).validLosses.length = e - 1 ∧
    (runProgram dyn args p0 trainS validS testS req (Stop.duringValid e b)).outputs = none ∧
    (runProgram dyn args p0 trainS validS testS req (Stop.duringValid e b)).testRecs.length =
      (get_loaders testS args.bptt req false).length := by
  have hiff : ∀ stop : Stop,
      (runProgram dyn args p0 trainS validS testS req stop).outputs = none ↔
        ¬((runProgram dyn args p0 trainS validS testS req stop).trainLosses.length =
          (runProgram dyn args p0 trainS validS testS req stop).validLosses.length) := by
    intro stop
    simp only [runProgram]
    split
    · rename_i hA
      simp [hA]
    · rename_i hA
      simp [hA]
  have hfact := runEpochs_valid_interrupt dyn args
    (get_loaders trainS args.bptt req args.use_var_bptt)
    (get_loaders validS args.bptt req false) e b args.epochs 1
    { params := p0
      hidden := dyn.h0
      sched := { best := none, bestEpoch := 0, lr := args.lr, ckpt := none }
      trainLosses := [], validLosses := [], epochRecs := [], events := [] }
    h1 (by omega)
  have hlen := runEpochs_never_lengths dyn args
    (get_loaders trainS args.bptt req args.use_var_bptt)
    (get_loaders validS args.bptt req false) (e - 1) 1
    { params := p0
      hidden := dyn.h0
      sched := { best := none, bestEpoch := 0, lr := args.lr, ckpt := none }
      trainLosses := [], validLosses := [], epochRecs := [], events := [] }
  have ht : (runProgram dyn args p0 trainS validS testS req
      (Stop.duringValid e b)).trainLosses.length = e := by
    simp only [runProgram]
    rw [hfact]
    simp only [interruptedValidEpoch, List.length_append, List.length_cons, List.length_nil]
    have h3 := hlen.1
    simp only [List.length_nil] at h3
    omega
  have hv : (runProgram dyn args p0 trainS validS testS req
      (Stop.duringValid e b)).validLosses.length = e - 1 := by
    simp only [runProgram]
    rw [hfact]
    simp only [interruptedValidEpoch]
    have h3 := hlen.2.1
    simp only [List.length_nil] at h3
    omega
  refine ⟨hiff, ht, hv, ?_, ?_⟩
  · refine (hiff (Stop.duringValid e b)).mpr ?_
    rw [ht, hv]
    omega
  · simp only [runProgram]
    exact evalSteps_len dyn _ _ _

/-- Witness for C10: interrupt during the validation pass of epoch two. -/
theorem c10_witness :
    1 ≤ 2 ∧ 2 ≤ argsA.epochs ∧
    ((∀ stop : Stop,
      (runProgram dynN argsA 0 streamA streamA streamA reqA stop).outputs = none ↔
        ¬((runProgram dynN argsA 0 streamA streamA streamA reqA stop).trainLosses.length =
          (runProgram dynN argsA 0 streamA streamA streamA reqA stop).validLosses.length)) ∧
    (runProgram dynN argsA 0 streamA streamA streamA reqA
      (Stop.duringValid 2 1)).trainLosses.length = 2 ∧
    (runProgram dynN argsA 0 streamA streamA streamA reqA
      (Stop.duringValid 2 1)).validLosses.length = 2 - 1 ∧
    (runProgram dynN argsA 0 streamA streamA streamA reqA
      (Stop.duringValid 2 1)).outputs = none ∧
    (runProgram dynN argsA 0 streamA streamA streamA reqA
      (Stop.duringValid 2 1)).testRecs.length =
      (get_loaders streamA argsA.bptt reqA false).length) :=
  ⟨by decide, by decide,
    c10_csv_after_interrupt dynN argsA 0 streamA streamA streamA reqA 2 1
      (by decide) (by decide)⟩

theorem get_loadersGo_fixed_req (stream : List ℕ) (bptt : ℕ) (req req1 : ℕ → ℕ) :
    ∀ (fuel t k k1 : ℕ),
      get_loadersGo stream false bptt req fuel t k =
        get_loadersGo stream false bptt req1 fuel t k1 := by
  intro fuel
  induction fuel with
  | zero =>
    intro t k k1
    rfl
  | succ fuel ih =>
    intro t k k1
    simp only [get_loadersGo, windowLenAt, Bool.false_eq_true, if_false]
    by_cases hr : stream.length - 1 - t < 2
    · rw [if_pos hr, if_pos hr]
    · rw [if_neg hr, if_neg hr]
      congr 1
      exact ih _ _ _

/-- C9: variable length windowing applies only to the training loader. The standard mode
batcher ignores the random draws entirely, the validation and test loaders of any run are
the standard mode loaders whatever the variable BPTT flag says, and no per window
learning rate write ever appears among the events of a validation or test pass. -/
theorem c9_eval_fixed_windows (dyn : Dyn P H) (args : Args) (p0 : P)
    (trainS validS testS : List ℕ) (req req1 : ℕ → ℕ) (stop : Stop) (v : ℚ)
    (vrecs : List (VBRec H)) :
    (get_loaders validS args.bptt req false = get_loaders validS args.bptt req1 false) ∧
    ((runProgram dyn args p0 trainS validS testS req stop).validWindows =
      (runProgram dyn { args with use_var_bptt := !args.use_var_bptt } p0
        trainS validS testS req stop).validWindows) ∧
    ((runProgram dyn args p0 trainS validS testS req stop).testWindows =
      (runProgram dyn { args with use_var_bptt := !args.use_var_bptt } p0
        trainS validS testS req stop).testWindows) ∧
    ((runProgram dyn args p0 trainS validS testS req stop).validWindows =
      get_loaders validS args.bptt req false) ∧
    ((runProgram dyn args p0 trainS validS testS req stop).testWindows =
      get_loaders testS args.bptt req false) ∧
    (Ev.lrSet v ∉ validPassEvents vrecs) ∧
    (Ev.lrSet v ∉ testPassEvents vrecs) := by
  refine ⟨?_, rfl, rfl, rfl, rfl, ?_, ?_⟩
  · exact get_loadersGo_fixed_req validS args.bptt req req1 validS.length 0 0 0
  · simp [validPassEvents]
  · simp [testPassEvents]

/-- Witness for C9 on concrete loaders, run and events. -/
theorem c9_witness :
    (get_loaders streamA argsA.bptt reqA false =
      get_loaders streamA argsA.bptt (fun _ => 7) false) ∧
    ((runProgram dynN argsA 0 streamA streamA streamA reqA Stop.never).validWindows =
      (runProgram dynN { argsA with use_var_bptt := !argsA.use_var_bptt } 0
        streamA streamA streamA reqA Stop.never).validWindows) ∧
    ((runProgram dynN argsA 0 streamA streamA streamA reqA Stop.never).testWindows =
      (runProgram dynN { argsA with use_var_bptt := !argsA.use_var_bptt } 0
        streamA streamA streamA reqA Stop.never).testWindows) ∧
    ((runProgram dynN argsA 0 streamA streamA streamA reqA Stop.never).validWindows =
      get_loaders streamA argsA.bptt reqA false) ∧
    ((runProgram dynN argsA 0 streamA streamA streamA reqA Stop.never).testWindows =
      get_loaders streamA argsA.bptt reqA false) ∧
    (Ev.lrSet 9 ∉ validPassEvents ([⟨1, 0, 1⟩] : List (VBRec ℕ))) ∧
    (Ev.lrSet 9 ∉ testPassEvents ([⟨1, 0, 1⟩] : List (VBRec ℕ))) :=
  c9_eval_fixed_windows dynN argsA 0 streamA streamA streamA reqA (fun _ => 7)
    Stop.never 9 [⟨1, 0, 1⟩]

/-- C8 is refuted on the spec modelled construction: with weight tying enabled and
emb_dim 10 against hidden_dim 20, no dimension mismatch arises (main.py line 85 sizes the
decoder to emb_dim and spec section 4.3 sizes the final encoder layer to emb_dim), so the
program does not fail fast: a full run completes its epoch and processes training
batches. -/
theorem c8_tie_counterexample :
    argsTie.tie_weights = true ∧
    argsTie.emb_dim ≠ argsTie.hidden_dim ∧
    tieShapesOk argsTie = true ∧
    encoderFinalDim argsTie = decoderHiddenDim argsTie ∧
    (runProgram dynN argsTie 0 streamA streamA streamA reqA Stop.never).epochRecs.length
      = argsTie.epochs ∧
    ((runProgram dynN argsTie 0 streamA streamA streamA reqA
      Stop.never).epochRecs.headD ([], [])).1.length = 4 := by
  refine ⟨rfl, by decide, by decide, by decide, ?_, ?_⟩
  · decide
  · decide

/-- C8 (amended): enabling weight tying can never produce mismatched matrices, whatever
emb_dim and hidden_dim are: the decoder width and the final encoder layer width are both
set to emb_dim when tying is on, so the tied shapes always agree and there is nothing to
fail fast on; training proceeds normally. -/
theorem c8_tie_amended (args : Args) (h : args.tie_weights = true) :
    decoderHiddenDim args = args.emb_dim ∧
    encoderFinalDim args = decoderHiddenDim args ∧
    tieShapesOk args = true := by
  simp [decoderHiddenDim, encoderFinalDim, tieShapesOk, h]

/-- Witness for the amended C8 at the concrete tied configuration. -/
theorem c8_witness :
    argsTie.tie_weights = true ∧
    (decoderHiddenDim argsTie = argsTie.emb_dim ∧
     encoderFinalDim argsTie = decoderHiddenDim argsTie ∧
     tieShapesOk argsTie = true) :=
  ⟨rfl, c8_tie_amended argsTie rfl⟩

end AWD
